import Mathlib

/-!
# A shallow embedding of `dirwatcher.py`

This file embeds the core of the `dirwatcher` program — the tracked-file
registry and its per-cycle reconciliation (`sync_added_files`,
`sync_deleted_files`), the offset-based incremental read
(`read_single_file`), the text matcher (`check_magic_text`), and the
per-cycle orchestration of `watch_directory` — and proves or refutes the
specification's claims about them.

Python strings are modelled as `List Char`; Python `dict` (whose insertion
order is observable, and is observed by the source when it iterates
`cache.keys()`) is modelled as an ordered association list with unique keys.
Python exceptions are modelled explicitly: a function that can raise returns
a result carrying the exception and the state of in-place mutations already
performed when it was raised.
-/

set_option autoImplicit false

namespace Dirwatcher

/-- A Python string, modelled as its list of characters. -/
abbrev PyStr := List Char

/-- A file identity: the absolute path string used as a `file_cache` key. -/
abbrev FileId := PyStr

/-- The Python exceptions that the source can raise or catch. -/
inductive PyExc where
  | fileNotFound
  | permissionError
  | runtimeError
  | indexError
  deriving DecidableEq, Repr

/-- Python `str.lower()`: lower-case every character. -/
def pyLower (s : PyStr) : PyStr := s.map Char.toLower

/-- Python `needle in haystack` on strings: substring containment.
The empty needle is contained in every string, as in Python. -/
def pyInStr (needle haystack : PyStr) : Bool :=
  decide (needle <:+: haystack)

/-- The per-line test of `check_magic_text` (dirwatcher.py line 322):
`magic_text.lower() in line.lower()`. -/
def line_matches (magic_text line : PyStr) : Bool :=
  pyInStr (pyLower magic_text) (pyLower line)

/-- Model of `check_magic_text(file_lines, magic_text, first_line_num)`
(dirwatcher.py lines 307–325): walk the lines keeping a running line
counter that starts at `first_line_num`; whenever a line contains the
magic text case-insensitively, record `line_num + 1` (the append happens
before the counter is incremented, so the recorded number is
`first_line_num + local_index + 1`). -/
def check_magic_text (file_lines : List PyStr) (magic_text : PyStr)
    (first_line_num : Nat) : List Nat :=
  match file_lines with
  | [] => []
  | line :: rest =>
    if line_matches magic_text line then
      (first_line_num + 1) :: check_magic_text rest magic_text (first_line_num + 1)
    else
      check_magic_text rest magic_text (first_line_num + 1)

/-- Python list slicing `l[k:]` for an `int` index `k`.  CPython clamps the
bound: a non-negative `k` drops the first `k` elements (yielding `[]` when
`k ≥ len(l)`), a negative `k` starts at `max(0, len(l) + k)`.  Slicing is a
total operation: no index value raises `IndexError`. -/
def pySliceFrom {α : Type} (l : List α) (k : Int) : List α :=
  if 0 ≤ k then l.drop k.toNat else l.drop (l.length - (-k).toNat)

/-- The body of the `try` in `read_single_file` (dirwatcher.py line 296):
`f.readlines()[line_start:]`.  `readlines` on an already-open handle is
modelled as the given line list; the slice is `pySliceFrom`, which is total,
so the body always returns `Except.ok`. -/
def sliceBody (lines : List PyStr) (line_start : Int) : Except PyExc (List PyStr) :=
  Except.ok (pySliceFrom lines line_start)

/-- Model of `read_single_file` once the file has been opened successfully
(dirwatcher.py lines 294–304): run the slice body; on `IndexError` (or the
dead `FileNotFoundError` arm — `readlines` on an open handle cannot raise
it) return `[]`.  The `open` call itself is *outside* this `try`, and is
modelled separately in the cycle (`runReads`). -/
def read_single_file (lines : List PyStr) (line_start : Int) : List PyStr :=
  match sliceBody lines line_start with
  | Except.ok content => content
  | Except.error _ => []

/-- The tracked-file registry `file_cache`: a Python dict from file path to
number of lines already read, modelled as an insertion-ordered association
list.  Keys are unique by construction (`sync_added_files` only appends
keys that are absent). -/
abbrev Registry := List (FileId × Nat)

/-- The key list `cache.keys()` in insertion order. -/
def keys (cache : Registry) : List FileId := cache.map Prod.fst

/-- Python `cache[f]` lookup, as an `Option` (keys are unique, so the first
entry with the key is the only one). -/
def lookup (cache : Registry) (f : FileId) : Option Nat :=
  (cache.find? (fun p => decide (p.1 = f))).map Prod.snd

/-- Python `cache[f] = v` for a key already present: replace the value in
place, preserving the entry's position. -/
def dictSet (cache : Registry) (f : FileId) (v : Nat) : Registry :=
  cache.map (fun p => if p.1 = f then (f, v) else p)

/-- Model of `sync_added_files(cache, files)` (dirwatcher.py lines 243–259): for each
listed file, if its path is not a key of the cache, insert it with value 0
(Python dict insertion appends at the end of the iteration order). -/
def sync_added_files (cache : Registry) (files : List FileId) : Registry :=
  match files with
  | [] => cache
  | f :: rest =>
    sync_added_files (if f ∈ keys cache then cache else cache ++ [(f, 0)]) rest

/-- Outcome of `sync_deleted_files`: either a normal return, or a
`RuntimeError` raised mid-iteration with the dict already mutated in place
(the caller's `file_cache` still refers to that mutated dict). -/
inductive SyncDeletedResult where
  | ok (cache : Registry)
  | runtimeError (cache : Registry)
  deriving DecidableEq, Repr

/-- Model of `sync_deleted_files(cache, files)` (dirwatcher.py lines 262–279): the
source iterates `cache.keys()` and `pop`s every key not in `files`.  In
Python 3 the first `pop` changes the dict's size, and the very next step of
the key iterator raises `RuntimeError` ("dictionary changed size during
iteration").  So: if no key is stale the function returns the cache
unchanged; otherwise exactly the first stale key (in insertion order) is
removed and `RuntimeError` propagates, with the dict already mutated. -/
def sync_deleted_files (cache : Registry) (files : List FileId) : SyncDeletedResult :=
  match cache.find? (fun p => decide (p.1 ∉ files)) with
  | none => SyncDeletedResult.ok cache
  | some p =>
    SyncDeletedResult.runtimeError (cache.eraseP (fun q => decide (q.1 = p.1)))

/-- The reconciliation step of each cycle (dirwatcher.py lines 189–192):
`sync_added_files` then `sync_deleted_files` against the same listing. -/
def reconcile (cache : Registry) (files : List FileId) : SyncDeletedResult :=
  sync_deleted_files (sync_added_files cache files) files

/-- The registry state after the reconciliation step, whether or not
`sync_deleted_files` raised (the `RuntimeError` is caught at cycle level and
the in-place mutation survives). -/
def cacheAfter : SyncDeletedResult → Registry
  | SyncDeletedResult.ok c => c
  | SyncDeletedResult.runtimeError c => c

/-- Per-character semantics of the extension pattern compiled at
dirwatcher.py line 166: a character of `file_ext` that is the regex
metacharacter `.` matches any character except a newline (no DOTALL flag);
any regex-ordinary character matches only itself. -/
def charMatches (p c : Char) : Bool :=
  if p = '.' then decide (c ≠ Char.ofNat 10) else decide (p = c)

/-- Character-wise match of the extension pattern against a tail segment of
the file name: succeeds only when the segment has exactly the pattern's
length and every character matches. -/
def literalExtMatch : PyStr → PyStr → Bool
  | [], [] => true
  | p :: ps, c :: cs => charMatches p c && literalExtMatch ps cs
  | _, _ => false

/-- Model of the filename filter of `watch_directory`:
`re.search(r'\S*{}\Z'.format(file_ext), file)` (dirwatcher.py lines
165–166 and 182–184), for extensions built from `.` and regex-ordinary
characters (the common case; other metacharacters are outside this model).
`re.search` succeeds iff some start position `i` admits a run of `l`
non-whitespace characters (the `\S*`) followed by a match of the extension
pattern ending exactly at the end of the name (the `\Z` anchor). -/
def extFilter (file_ext name : PyStr) : Bool :=
  (List.range (name.length + 1)).any (fun i =>
    (List.range (name.length + 1 - i)).any (fun l =>
      ((name.drop i).take l).all (fun c => !c.isWhitespace) &&
      literalExtMatch file_ext (name.drop (i + l))))

/-- The per-file read-and-match step of `watch_directory` (dirwatcher.py
lines 200–226) for a file whose content could be read: take the lines past
the stored offset as new content; if there is any, scan it for the magic
text and advance the offset by the number of new lines; otherwise leave
the offset unchanged.  Returns the new offset and the reported match line
numbers. -/
def stepFile (magic_text : PyStr) (start_line : Nat) (lines : List PyStr) :
    Nat × List Nat :=
  let new_content := read_single_file lines (Int.ofNat start_line)
  if new_content = [] then (start_line, [])
  else (start_line + new_content.length,
        check_magic_text new_content magic_text start_line)

/-- Repeated runs of the per-file step over successive snapshots of one
file's content, threading the offset and collecting every reported match
line number in order: a tracked file as observed across successive poll
cycles. -/
def runSteps (magic_text : PyStr) : List (List PyStr) → Nat → Nat × List Nat
  | [], st => (st, [])
  | c :: cs, st =>
    let r := stepFile magic_text st c
    let rest := runSteps magic_text cs r.1
    (rest.1, r.2 ++ rest.2)

/-- One reported match: the file's path and the 1-based line number, as
logged at dirwatcher.py lines 215–221. -/
abbrev Report := FileId × Nat

/-- Result of the read phase of a cycle: the for-loop over files either
completes, or an exception escapes it with the cache mutations and reports
already made still in effect. -/
inductive ReadResult where
  | done (cache : Registry) (reports : List Report)
  | exc (e : PyExc) (cache : Registry) (reports : List Report)
  deriving DecidableEq, Repr

/-- The for-loop over listed files in `watch_directory` (dirwatcher.py
lines 197–226).  `readFile` models `open` + `readlines` for one file:
either the content, or the exception `open` raises (`FileNotFoundError`
when the file vanished after the listing, `PermissionError` when it is
unreadable) — raised *outside* the `try` of `read_single_file`, so it
escapes that function.  An exception stops this loop and propagates with
the cache updates and reports made so far already performed.  The
`.getD 0` default of the `file_cache[file]` lookup is never used on this
path: `sync_added_files` inserted every listed file and
`sync_deleted_files` returned normally. -/
def runReads (readFile : FileId → Except PyExc (List PyStr)) (magic_text : PyStr) :
    List FileId → Registry → List Report → ReadResult
  | [], cache, acc => ReadResult.done cache acc
  | f :: rest, cache, acc =>
    let start_line := (lookup cache f).getD 0
    match readFile f with
    | Except.error e => ReadResult.exc e cache acc
    | Except.ok lines =>
      let new_content := read_single_file lines (Int.ofNat start_line)
      if new_content = [] then runReads readFile magic_text rest cache acc
      else
        runReads readFile magic_text rest
          (dictSet cache f (start_line + new_content.length))
          (acc ++ (check_magic_text new_content magic_text start_line).map
            (fun n => (f, n)))

/-- Outcome of one iteration of the watch loop's `try` block
(dirwatcher.py lines 178–237). -/
inductive CycleOutcome where
  /-- the `try` block ran to completion -/
  | normal (cache : Registry) (reports : List Report)
  /-- a `FileNotFoundError` was caught at lines 231–233 and logged at
  error severity as `Directory ... does not exist` -/
  | dirError (cache : Registry) (reports : List Report)
  /-- a `RuntimeError` was caught at lines 234–237 (debug log) -/
  | rteCaught (cache : Registry) (reports : List Report)
  /-- any other exception propagates out of `watch_directory`,
  terminating the process -/
  | crash (e : PyExc)
  deriving DecidableEq, Repr

/-- One poll cycle of `watch_directory` (dirwatcher.py lines 177–237):
list the directory, filter names by the extension pattern, prefix the
directory path, reconcile the registry, then read and match each listed
file.  `listing` models `os.listdir(directory_path)`: the names, or the
exception it raises (`FileNotFoundError` when the directory is missing,
`PermissionError` when it is inaccessible). -/
def cycle (dir file_ext magic_text : PyStr)
    (listing : Except PyExc (List PyStr))
    (readFile : FileId → Except PyExc (List PyStr))
    (cache : Registry) : CycleOutcome :=
  match listing with
  | Except.error PyExc.fileNotFound => CycleOutcome.dirError cache []
  | Except.error e => CycleOutcome.crash e
  | Except.ok names =>
    let files := (names.filter (fun n => extFilter file_ext n)).map
      (fun n => dir ++ [Char.ofNat 47] ++ n)
    match sync_deleted_files (sync_added_files cache files) files with
    | SyncDeletedResult.runtimeError cache2 => CycleOutcome.rteCaught cache2 []
    | SyncDeletedResult.ok cache2 =>
      match runReads readFile magic_text files cache2 [] with
      | ReadResult.done c r => CycleOutcome.normal c r
      | ReadResult.exc PyExc.fileNotFound c r => CycleOutcome.dirError c r
      | ReadResult.exc e _ _ => CycleOutcome.crash e

/-- The filesystem as observed by one cycle: the `os.listdir` outcome and
the per-file open/read outcome. -/
structure CycleView where
  listing : Except PyExc (List PyStr)
  readFile : FileId → Except PyExc (List PyStr)

/-- The watch loop (dirwatcher.py lines 177–240) over a finite schedule of
cycle views: a caught exception (`FileNotFoundError`, `RuntimeError`) lets
the loop sleep and retry with the next view; any other exception
propagates, terminating the loop — remaining views are never observed, and
the second component records the escaped exception. -/
def runCycles (dir file_ext magic_text : PyStr) :
    List CycleView → Registry → Registry × Option PyExc
  | [], cache => (cache, none)
  | v :: rest, cache =>
    match cycle dir file_ext magic_text v.listing v.readFile cache with
    | CycleOutcome.normal c _ => runCycles dir file_ext magic_text rest c
    | CycleOutcome.dirError c _ => runCycles dir file_ext magic_text rest c
    | CycleOutcome.rteCaught c _ => runCycles dir file_ext magic_text rest c
    | CycleOutcome.crash e => (cache, some e)

/-! ## Helper lemmas -/

/-- Reading with a natural starting offset is dropping that many lines. -/
lemma read_single_file_ofNat (lines : List PyStr) (st : Nat) :
    read_single_file lines (Int.ofNat st) = lines.drop st := by
  have h0 : (0 : Int) ≤ Int.ofNat st := Int.ofNat_le.mpr (Nat.zero_le st)
  simp [read_single_file, sliceBody, pySliceFrom, h0]

/-- Membership in the matcher's output, characterised by line index. -/
lemma mem_check_magic_text (magic_text : PyStr) :
    ∀ (file_lines : List PyStr) (off n : Nat),
      n ∈ check_magic_text file_lines magic_text off ↔
        ∃ i, i < file_lines.length ∧ n = off + i + 1 ∧
          line_matches magic_text (file_lines.getD i []) = true := by
  intro file_lines
  induction file_lines with
  | nil => intro off n; simp [check_magic_text]
  | cons line rest ih =>
    intro off n
    by_cases h : line_matches magic_text line = true
    · simp only [check_magic_text, if_pos h, List.mem_cons, ih]
      constructor
      · rintro (rfl | ⟨i, hi, rfl, hm⟩)
        · exact ⟨0, by simp, by omega, by simpa using h⟩
        · exact ⟨i + 1, by simp; omega, by omega, by simpa using hm⟩
      · rintro ⟨i, hi, rfl, hm⟩
        cases i with
        | zero => exact Or.inl (by omega)
        | succ j =>
          refine Or.inr ⟨j, by simp at hi; omega, by omega, by simpa using hm⟩
    · simp only [check_magic_text, if_neg h, ih]
      constructor
      · rintro ⟨i, hi, rfl, hm⟩
        exact ⟨i + 1, by simp; omega, by omega, by simpa using hm⟩
      · rintro ⟨i, hi, rfl, hm⟩
        cases i with
        | zero =>
          exfalso
          exact h (by simpa using hm)
        | succ j =>
          refine ⟨j, by simp at hi; omega, by omega, by simpa using hm⟩

/-- The result of `sync_added_files` is the original cache followed by
fresh entries, each with offset 0, for listed files that were absent. -/
lemma sync_added_structure :
    ∀ (files : List FileId) (cache : Registry),
      ∃ added, sync_added_files cache files = cache ++ added ∧
        ∀ p ∈ added, p.2 = 0 ∧ p.1 ∈ files ∧ p.1 ∉ keys cache := by
  intro files
  induction files with
  | nil => intro cache; exact ⟨[], by simp [sync_added_files], by simp⟩
  | cons f rest ih =>
    intro cache
    by_cases hf : f ∈ keys cache
    · obtain ⟨added, heq, hprop⟩ := ih cache
      refine ⟨added, by simpa [sync_added_files, hf] using heq, ?_⟩
      intro p hp
      obtain ⟨h0, hmem, hnk⟩ := hprop p hp
      exact ⟨h0, List.mem_cons_of_mem _ hmem, hnk⟩
    · obtain ⟨added, heq, hprop⟩ := ih (cache ++ [(f, 0)])
      refine ⟨(f, 0) :: added, ?_, ?_⟩
      · rw [sync_added_files, if_neg hf, heq, List.append_assoc]
        rfl
      · rintro p hp
        rcases List.mem_cons.mp hp with rfl | hp'
        · exact ⟨rfl, List.mem_cons_self _ _, hf⟩
        · obtain ⟨h0, hmem, hnk⟩ := hprop p hp'
          refine ⟨h0, List.mem_cons_of_mem _ hmem, fun hc => hnk ?_⟩
          simp [keys] at hc ⊢
          exact Or.inl hc

/-- A lookup whose key lives in the left part of an appended registry is
decided by the left part. -/
lemma lookup_append_left (c₂ : Registry) (f : FileId) :
    ∀ c₁ : Registry, f ∈ keys c₁ → lookup (c₁ ++ c₂) f = lookup c₁ f := by
  intro c₁
  induction c₁ with
  | nil => intro h; simp [keys] at h
  | cons p rest ih =>
    intro h
    by_cases hp : p.1 = f
    · simp [lookup, List.find?, hp]
    · have h' : f ∈ keys rest := by
        simp [keys] at h
        rcases h with h | h
        · exact absurd h.symm hp
        · simpa [keys] using h
      simpa [lookup, List.find?, hp] using ih h'

/-- C10: the `IndexError` handler of `read_single_file` is dead code.
Python list slicing from a non-negative start is total: the `try` body
always yields `Except.ok` (no exception), the function's value is exactly
the slice (the `except` arm returning `[]` contributes nothing), and a
start at or beyond the number of lines gives the empty list rather than an
error. -/
theorem c10_index_error_branch_unreachable (lines : List PyStr)
    (line_start : Int) (h : 0 ≤ line_start) :
    sliceBody lines line_start = Except.ok (lines.drop line_start.toNat) ∧
    read_single_file lines line_start = lines.drop line_start.toNat ∧
    (lines.length ≤ line_start.toNat →
      read_single_file lines line_start = []) := by
  have hs : pySliceFrom lines line_start = lines.drop line_start.toNat := by
    simp [pySliceFrom, h]
  refine ⟨by simp [sliceBody, hs], by simp [read_single_file, sliceBody, hs], ?_⟩
  intro hle
  simp [read_single_file, sliceBody, hs, List.drop_eq_nil_of_le hle]

/-- Closed instance of `c10_index_error_branch_unreachable` at a one-line
file and starting line 5. -/
theorem c10_index_error_branch_unreachable_witness :
    sliceBody ["a".toList] 5 = Except.ok (["a".toList].drop (5 : Int).toNat) ∧
    read_single_file ["a".toList] 5 = ["a".toList].drop (5 : Int).toNat ∧
    (["a".toList].length ≤ (5 : Int).toNat →
      read_single_file ["a".toList] 5 = []) :=
  c10_index_error_branch_unreachable ["a".toList] 5 (by decide)

/-- C7: a tracked file whose stored offset is at or beyond its current
line count yields zero new lines without error, produces zero match
reports, and leaves the stored offset unchanged. -/
theorem c7_offset_beyond_eof_noop (magic_text : PyStr) (lines : List PyStr)
    (st : Nat) (h : lines.length ≤ st) :
    read_single_file lines (Int.ofNat st) = [] ∧
    stepFile magic_text st lines = (st, []) := by
  have hr : read_single_file lines (Int.ofNat st) = [] := by
    rw [read_single_file_ofNat]
    exact List.drop_eq_nil_of_le h
  refine ⟨hr, ?_⟩
  simp [stepFile, hr]
  intro hc
  exact absurd hr hc

/-- Closed instance of `c7_offset_beyond_eof_noop`: two lines, offset 7. -/
theorem c7_offset_beyond_eof_noop_witness :
    read_single_file ["l1".toList, "l2".toList] (Int.ofNat 7) = [] ∧
    stepFile "x".toList 7 ["l1".toList, "l2".toList] = (7, []) :=
  c7_offset_beyond_eof_noop "x".toList ["l1".toList, "l2".toList] 7 (by decide)

/-- C5: the matcher reports exactly the numbers `offset + i + 1` for the
0-based indices `i` of the new lines containing the target text under the
case-insensitive substring test; in particular target `"ERROR"` matches a
line containing `"error"` or `"Error"`. -/
theorem c5_check_magic_text_spec :
    (∀ (file_lines : List PyStr) (magic_text : PyStr) (off n : Nat),
      n ∈ check_magic_text file_lines magic_text off ↔
        ∃ i, i < file_lines.length ∧ n = off + i + 1 ∧
          line_matches magic_text (file_lines.getD i []) = true) ∧
    check_magic_text ["an error here".toList] "ERROR".toList 0 = [1] ∧
    check_magic_text ["an Error here".toList] "ERROR".toList 0 = [1] ∧
    check_magic_text ["nothing here".toList] "ERROR".toList 0 = [] :=
  ⟨fun fl m off n => mem_check_magic_text m fl off n, by decide, by decide,
    by decide⟩

/-- C9: `sync_added_files` is a pure extension of the registry: lookups of
already-tracked files are unchanged, every entry of the result is either an
original entry or a fresh `(file, 0)` entry for a listed file that was
absent, and no original entry is removed. -/
theorem c9_sync_added_files_frame (cache : Registry) (files : List FileId) :
    (∀ f, f ∈ keys cache →
      lookup (sync_added_files cache files) f = lookup cache f) ∧
    (∀ p, p ∈ sync_added_files cache files →
      p ∈ cache ∨ (p.2 = 0 ∧ p.1 ∈ files ∧ p.1 ∉ keys cache)) ∧
    (∀ p, p ∈ cache → p ∈ sync_added_files cache files) := by
  obtain ⟨added, heq, hprop⟩ := sync_added_structure files cache
  refine ⟨?_, ?_, ?_⟩
  · intro f hf
    rw [heq]
    exact lookup_append_left added f cache hf
  · intro p hp
    rw [heq] at hp
    rcases List.mem_append.mp hp with hp | hp
    · exact Or.inl hp
    · exact Or.inr (hprop p hp)
  · intro p hp
    rw [heq]
    exact List.mem_append.mpr (Or.inl hp)

/-- Closed instance of `c9_sync_added_files_frame`: the tracked file `a`
keeps its offset 3 when the listing `[a, b]` is synchronised in. -/
theorem c9_sync_added_files_frame_witness :
    lookup (sync_added_files [("a".toList, 3)] ["a".toList, "b".toList])
      "a".toList = lookup [("a".toList, 3)] "a".toList :=
  (c9_sync_added_files_frame [("a".toList, 3)] ["a".toList, "b".toList]).1
    "a".toList (by decide)

/-- With no `.` in the pattern, the character-wise extension match is
plain equality of strings. -/
lemma literalExtMatch_no_dot :
    ∀ file_ext : PyStr, (∀ c ∈ file_ext, c ≠ '.') →
      ∀ l : PyStr, literalExtMatch file_ext l = true ↔ file_ext = l := by
  intro file_ext
  induction file_ext with
  | nil =>
    intro _ l
    cases l <;> simp [literalExtMatch]
  | cons p ps ih =>
    intro h l
    have hp : p ≠ '.' := h p (List.mem_cons_self _ _)
    have h' : ∀ c ∈ ps, c ≠ '.' := fun c hc => h c (List.mem_cons_of_mem _ hc)
    cases l with
    | nil => simp [literalExtMatch]
    | cons c cs =>
      simp [literalExtMatch, charMatches, hp, ih h' cs]

/-- The filter succeeds iff the extension pattern matches some tail of the
name: the `\S*` part constrains nothing since it may match the empty
string at any start position. -/
lemma extFilter_iff_drop (file_ext name : PyStr) :
    extFilter file_ext name = true ↔
      ∃ k, k ≤ name.length ∧ literalExtMatch file_ext (name.drop k) = true := by
  unfold extFilter
  rw [List.any_eq_true]
  constructor
  · rintro ⟨i, _, hl⟩
    rw [List.any_eq_true] at hl
    obtain ⟨l, _, hcond⟩ := hl
    rw [Bool.and_eq_true] at hcond
    by_cases hk : i + l ≤ name.length
    · exact ⟨i + l, hk, hcond.2⟩
    · refine ⟨name.length, le_refl _, ?_⟩
      have h1 : name.drop (i + l) = [] := List.drop_eq_nil_of_le (by omega)
      have h2 : name.drop name.length = [] := List.drop_eq_nil_of_le (le_refl _)
      rw [h2, ← h1]
      exact hcond.2
  · rintro ⟨k, hk, hm⟩
    refine ⟨k, List.mem_range.mpr (by omega), ?_⟩
    rw [List.any_eq_true]
    refine ⟨0, List.mem_range.mpr (by omega), ?_⟩
    rw [Bool.and_eq_true]
    exact ⟨by simp, by simpa using hm⟩

/-- A string is a tail segment obtained by dropping iff it is a suffix. -/
lemma drop_eq_iff_suffix (file_ext name : PyStr) :
    (∃ k, k ≤ name.length ∧ name.drop k = file_ext) ↔ file_ext <:+ name := by
  constructor
  · rintro ⟨k, _, rfl⟩
    exact List.drop_suffix k name
  · rintro ⟨t, rfl⟩
    exact ⟨t.length, by simp, List.drop_left t file_ext⟩

/-- C6 (amended): the selection test is the regular expression
`\S*<ext>\Z`, not a literal comparison; for an extension free of regex
metacharacters (here: no `.`, the only metacharacter the model gives its
regex meaning) it coincides with the case-sensitive literal suffix test. -/
theorem c6_ext_filter_suffix_when_literal (file_ext name : PyStr)
    (h : ∀ c ∈ file_ext, c ≠ '.') :
    extFilter file_ext name = true ↔ file_ext <:+ name := by
  rw [extFilter_iff_drop, ← drop_eq_iff_suffix file_ext name]
  constructor
  · rintro ⟨k, hk, hm⟩
    exact ⟨k, hk, ((literalExtMatch_no_dot file_ext h (name.drop k)).mp hm).symm⟩
  · rintro ⟨k, hk, hd⟩
    exact ⟨k, hk, (literalExtMatch_no_dot file_ext h (name.drop k)).mpr hd.symm⟩

/-- Closed instance of `c6_ext_filter_suffix_when_literal`: the
metacharacter-free extension `log` selects `a.log`, a name it literally
suffixes. -/
theorem c6_ext_filter_suffix_when_literal_witness :
    extFilter "log".toList "a.log".toList = true :=
  (c6_ext_filter_suffix_when_literal "log".toList "a.log".toList
    (by decide)).mpr (by decide)

/-- Scanning a concatenation is scanning both parts, the second with the
line counter advanced by the length of the first. -/
lemma check_magic_text_append (magic : PyStr) :
    ∀ (a b : List PyStr) (n : Nat),
      check_magic_text (a ++ b) magic n =
        check_magic_text a magic n ++ check_magic_text b magic (n + a.length) := by
  intro a
  induction a with
  | nil => intro b n; simp [check_magic_text]
  | cons line rest ih =>
    intro b n
    have harith : n + 1 + rest.length = n + (rest.length + 1) := by omega
    by_cases h : line_matches magic line = true <;>
      simp [check_magic_text, h, ih, harith]

/-- Every reported line number exceeds the starting counter. -/
lemma check_magic_text_gt (magic : PyStr) :
    ∀ (l : List PyStr) (n : Nat), ∀ x ∈ check_magic_text l magic n, n < x := by
  intro l
  induction l with
  | nil => intro n x hx; simp [check_magic_text] at hx
  | cons line rest ih =>
    intro n x hx
    by_cases h : line_matches magic line = true
    · rw [check_magic_text, if_pos h] at hx
      rcases List.mem_cons.mp hx with rfl | hx'
      · omega
      · have := ih (n + 1) x hx'
        omega
    · rw [check_magic_text, if_neg h] at hx
      have := ih (n + 1) x hx
      omega

/-- The matcher never reports a line number twice. -/
lemma check_magic_text_nodup (magic : PyStr) :
    ∀ (l : List PyStr) (n : Nat), (check_magic_text l magic n).Nodup := by
  intro l
  induction l with
  | nil => intro n; simp [check_magic_text]
  | cons line rest ih =>
    intro n
    by_cases h : line_matches magic line = true
    · rw [check_magic_text, if_pos h]
      refine List.nodup_cons.mpr ⟨fun hc => ?_, ih (n + 1)⟩
      have := check_magic_text_gt magic rest (n + 1) (n + 1) hc
      omega
    · rw [check_magic_text, if_neg h]
      exact ih (n + 1)

/-- One run of the per-file step from an offset within the file: the
offset lands on the file's current line count and the reported numbers are
the scan of the dropped tail. -/
lemma stepFile_spec (magic : PyStr) (st : Nat) (c : List PyStr)
    (h : st ≤ c.length) :
    stepFile magic st c = (c.length, check_magic_text (c.drop st) magic st) := by
  unfold stepFile
  rw [read_single_file_ofNat]
  by_cases hd : c.drop st = []
  · have hlen : c.length ≤ st := by
      have := congrArg List.length hd
      simp at this
      omega
    have hst : st = c.length := le_antisymm h hlen
    simp [hd, hst, check_magic_text]
  · simp [hd]
    omega

/-- Along a chain of prefix-growing contents, the first content is a
prefix of the last one. -/
lemma chain_head_pre_last :
    ∀ (cs : List (List PyStr)) (c last : List PyStr),
      List.Chain' (· <+: ·) (c :: cs) → (c :: cs).getLast? = some last →
      c <+: last := by
  intro cs
  induction cs with
  | nil =>
    intro c last _ hl
    simp at hl
    exact hl ▸ List.prefix_refl c
  | cons c' cs' ih =>
    intro c last hch hl
    rw [List.chain'_cons] at hch
    exact hch.1.trans (ih c' last hch.2 (by simpa using hl))

/-- Running the per-file step over a prefix-growing chain of contents,
starting inside the first content: the final offset is the last content's
line count, and the reports are, in order, exactly the single scan of the
last content past the starting offset. -/
lemma runSteps_spec (magic : PyStr) :
    ∀ (cs : List (List PyStr)) (c : List PyStr) (st : Nat) (last : List PyStr),
      st ≤ c.length → List.Chain' (· <+: ·) (c :: cs) →
      (c :: cs).getLast? = some last →
      runSteps magic (c :: cs) st =
        (last.length, check_magic_text (last.drop st) magic st) := by
  intro cs
  induction cs with
  | nil =>
    intro c st last hst _ hl
    simp at hl
    subst hl
    simp [runSteps, stepFile_spec magic st c hst]
  | cons c' cs' ih =>
    intro c st last hst hch hl
    rw [List.chain'_cons] at hch
    have hl' : (c' :: cs').getLast? = some last := by simpa using hl
    have hc'last : c' <+: last := chain_head_pre_last cs' c' last hch.2 hl'
    have hclast : c <+: last := hch.1.trans hc'last
    have hlen : c.length ≤ c'.length := hch.1.length_le
    obtain ⟨t, ht⟩ := hclast
    have hdrop1 : last.drop st = c.drop st ++ t := by
      rw [← ht, List.drop_append_eq_append_drop]
      have h0 : st - c.length = 0 := by omega
      rw [h0, List.drop_zero]
    have hdrop2 : last.drop c.length = t := by
      rw [← ht]
      exact List.drop_left c t
    have hstep := stepFile_spec magic st c hst
    have hrest := ih c' c.length last hlen hch.2 hl'
    have hlen2 : st + (c.drop st).length = c.length := by
      simp [List.length_drop]
      omega
    rw [hdrop2] at hrest
    show ((runSteps magic (c' :: cs') (stepFile magic st c).1).1,
        (stepFile magic st c).2 ++
          (runSteps magic (c' :: cs') (stepFile magic st c).1).2) =
      (last.length, check_magic_text (last.drop st) magic st)
    rw [hstep, hdrop1, check_magic_text_append, hlen2, hrest]

/-- C2: for a file whose line sequence only grows (each observed content a
prefix of the next), running the incremental read-and-match step over the
successive contents, starting at offset 0, reports — in order and without
duplicates — exactly the match line numbers of a single scan of the final
content. -/
theorem c2_incremental_scan_law (magic : PyStr) (cs : List (List PyStr))
    (final : List PyStr) (hchain : List.Chain' (· <+: ·) cs)
    (hlast : cs.getLast? = some final) :
    (runSteps magic cs 0).2 = check_magic_text final magic 0 ∧
    ((runSteps magic cs 0).2).Nodup := by
  cases cs with
  | nil => simp at hlast
  | cons c cs' =>
    rw [runSteps_spec magic cs' c 0 final (Nat.zero_le _) hchain hlast]
    simp [check_magic_text_nodup]

/-- Closed instance of `c2_incremental_scan_law`: two snapshots of a
growing file, magic text `err`; the two runs together report lines 1 and 3,
exactly the single scan of the final content. -/
theorem c2_incremental_scan_law_witness :
    (runSteps "err".toList
      [["a err".toList], ["a err".toList, "b".toList, "c ERR".toList]] 0).2 =
      check_magic_text ["a err".toList, "b".toList, "c ERR".toList]
        "err".toList 0 ∧
    ((runSteps "err".toList
      [["a err".toList], ["a err".toList, "b".toList, "c ERR".toList]] 0).2).Nodup :=
  c2_incremental_scan_law "err".toList
    [["a err".toList], ["a err".toList, "b".toList, "c ERR".toList]]
    ["a err".toList, "b".toList, "c ERR".toList]
    (List.chain'_cons.mpr
      ⟨⟨["b".toList, "c ERR".toList], rfl⟩, List.chain'_singleton _⟩) rfl

/-! ## Claim theorems settled by direct evaluation -/

/-- C1: the claim says the reconciliation step (`sync_added_files` then
`sync_deleted_files`) always yields a registry whose key set equals the
current listing.  The code violates it: with registry `{a: 0, b: 0}` and an
empty listing, popping `a` while iterating `cache.keys()` raises
`RuntimeError` before `b` can be examined, so the surviving registry still
holds `b` — its key set is not the (empty) listing. -/
theorem c1_reconcile_not_set_equality :
    reconcile [("a".toList, 0), ("b".toList, 0)] [] =
      SyncDeletedResult.runtimeError [("b".toList, 0)] ∧
    keys (cacheAfter (reconcile [("a".toList, 0), ("b".toList, 0)] [])) ≠ [] := by
  constructor
  · rfl
  · decide

/-- C8: the claim says reconciliation is idempotent.  The code violates it:
against the empty listing, one application to `{a: 0, b: 0}` leaves `{b: 0}`
(the `RuntimeError` aborts the key iteration after the first pop), while a
second application leaves `{}` — running twice is not a no-op after the
first run. -/
theorem c8_reconcile_not_idempotent :
    cacheAfter (reconcile [("a".toList, 0), ("b".toList, 0)] []) =
      [("b".toList, 0)] ∧
    cacheAfter (reconcile
      (cacheAfter (reconcile [("a".toList, 0), ("b".toList, 0)] [])) []) = [] ∧
    ([("b".toList, 0)] : Registry) ≠ [] := by
  refine ⟨rfl, rfl, by decide⟩

/-- C3: the claim says a file that vanishes between listing and read is
handled per-file and does not affect the other tracked files of the same
cycle.  The code violates it: `open` sits *outside* the `try` of
`read_single_file`, so its `FileNotFoundError` escapes to the cycle-level
handler (which mislabels it `Directory ... does not exist` at error
severity) and the remaining files are not read that cycle.  Concretely:
`d/a.log` vanishes while `d/b.log` contains the magic text, yet the cycle
ends as `dirError` with no report at all — even though scanning `d/b.log`'s
content would have reported line 1. -/
theorem c3_vanished_file_aborts_cycle :
    cycle "d".toList "log".toList "error".toList
      (Except.ok ["a.log".toList, "b.log".toList])
      (fun f => if f = "d/a.log".toList then Except.error PyExc.fileNotFound
                else Except.ok ["x error y".toList])
      [("d/a.log".toList, 0), ("d/b.log".toList, 0)] =
      CycleOutcome.dirError [("d/a.log".toList, 0), ("d/b.log".toList, 0)] [] ∧
    check_magic_text ["x error y".toList] "error".toList 0 = [1] :=
  ⟨rfl, rfl⟩

/-- C4 counterexample: the claim says an inaccessible directory (missing
*or* permission denied) aborts the cycle cleanly and that no error
escalates to process termination.  A `PermissionError` from `os.listdir`
matches no `except` clause of the loop: the loop terminates with the
exception escaping, and the following (healthy) cycle is never observed. -/
theorem c4_permission_denied_crashes :
    runCycles "d".toList "log".toList "x".toList
      [⟨Except.error PyExc.permissionError, fun _ => Except.ok []⟩,
       ⟨Except.ok ["a.log".toList], fun _ => Except.ok []⟩]
      [("d/z.log".toList, 5)] =
      ([("d/z.log".toList, 5)], some PyExc.permissionError) := rfl

/-- C4 (amended): only a *missing* directory (`FileNotFoundError` from
`os.listdir`) aborts the cycle cleanly — registry unchanged, reported at
error severity (the `dirError` outcome), and the loop carries on with the
next cycle exactly as if the failed one had not happened; a
permission-denied error at scan time is not caught and terminates the
loop. -/
theorem c4_missing_directory_cycle_clean (d e m : PyStr) (cache : Registry)
    (rf : FileId → Except PyExc (List PyStr)) (rest : List CycleView) :
    cycle d e m (Except.error PyExc.fileNotFound) rf cache =
      CycleOutcome.dirError cache [] ∧
    runCycles d e m (⟨Except.error PyExc.fileNotFound, rf⟩ :: rest) cache =
      runCycles d e m rest cache ∧
    cycle d e m (Except.error PyExc.permissionError) rf cache =
      CycleOutcome.crash PyExc.permissionError :=
  ⟨rfl, rfl, rfl⟩

/-- C6 counterexample: the claim says the extension filter is a literal
suffix test with no pattern semantics.  It is a regular expression: with
configured extension `.log`, the `.` is a regex wildcard, so the name
`axlog` is selected although `.log` is not a literal suffix of it. -/
theorem c6_ext_filter_not_literal_suffix :
    extFilter ".log".toList "axlog".toList = true ∧
    ¬ (".log".toList <:+ "axlog".toList) :=
  ⟨rfl, by decide⟩

end Dirwatcher
